import Mathlib

/-!
# A verification model of the `metrics-queue` library

This file gives a shallow embedding, in Lean, of the core of the
`metrics-queue` TypeScript library (`src/AutoIncrementingID.ts`,
`src/MetricIndexer.ts`, `src/MetricsQueue.ts`) and proves properties of the
embedded definitions.

Modelling conventions:

* JavaScript `Map` objects are modelled the way engines implement them: an
  insertion-ordered list of slots, where deleting a key tombstones its slot
  in place (`none`) and inserting a fresh key appends a slot.  Iteration
  (`Map.prototype.forEach`) walks the live slots in order and sees
  mutations performed during the walk, exactly as the JS specification
  prescribes: entries deleted before being visited are skipped, entries
  added during iteration are visited.
* Listener callbacks are identified by a natural number handle; what a
  callback *does* to the registry when invoked (re-entrant
  `add`/`remove` calls) is supplied by an environment mapping handles to
  lists of primitive actions.  An invocation is recorded in a trace
  together with the argument tuple it received.
* `async`/`await` scheduling is modelled by splitting `bust` into its
  synchronous phase (which invokes non-passive listeners and *schedules*
  passive ones) and the deferred phase (the FIFO microtask queue draining
  the scheduled units).  An `async` IIFE that starts with
  `await Promise.resolve()` runs nothing before its continuation is
  scheduled, so scheduling a passive entry captures `(listener,
  keepAlive, id)` and nothing else, exactly as the destructured closure in
  the source does.
* JS number-to-decimal-string conversion (`Number.prototype.toString`) is
  modelled by `decimalRepr`, a structurally recursive decimal renderer.
* Thrown exceptions are modelled with `Except`, `null`/`undefined` with
  `Option`.
-/

namespace MetricsQueueModel

/-! ## Decimal rendering: the model of JS `Number.prototype.toString` -/

/-- Little-endian decimal digit characters of `n`, with fuel (structural
recursion).  With fuel `> 0` and `n = 0` this yields `['0']`, matching JS
`(0).toString() = "0"`. -/
def decChars : Nat → Nat → List Char
  | 0, _ => []
  | f + 1, n =>
    if n < 10 then [Nat.digitChar n]
    else Nat.digitChar (n % 10) :: decChars f (n / 10)

/-- Model of JS `Number.prototype.toString` on a nonnegative integer:
its big-endian decimal representation. -/
def decimalRepr (n : Nat) : String :=
  (decChars (n + 1) n).reverse.asString

/-- Decoder used to prove `decimalRepr` injective: numeric value of a
little-endian decimal character list. -/
def decodeChars : List Char → Nat
  | [] => 0
  | c :: cs => (c.toNat - 48) + 10 * decodeChars cs

theorem digitChar_decode (n : Nat) (h : n < 10) : (Nat.digitChar n).toNat - 48 = n := by
  interval_cases n <;> decide

theorem decodeChars_decChars (fuel n : Nat) (h : n ≤ fuel) :
    decodeChars (decChars fuel n) = n := by
  induction fuel generalizing n with
  | zero => simp_all [decChars, decodeChars]
  | succ f ih =>
    by_cases h10 : n < 10
    · simp [decChars, h10, decodeChars, digitChar_decode n h10]
    · have hn : 0 < n := by omega
      have hdiv : n / 10 ≤ f := by
        have := Nat.div_lt_self hn (by omega : 1 < 10)
        omega
      simp only [decChars, h10, if_false, decodeChars, ih (n / 10) hdiv]
      have := digitChar_decode (n % 10) (Nat.mod_lt n (by omega))
      rw [this]
      omega

theorem decimalRepr_injective : Function.Injective decimalRepr := by
  intro m n h
  unfold decimalRepr at h
  have hlist : (decChars (m + 1) m).reverse = (decChars (n + 1) n).reverse := by
    have : ((decChars (m + 1) m).reverse.asString).data
        = ((decChars (n + 1) n).reverse.asString).data := by rw [h]
    simpa [List.asString] using this
  have : decChars (m + 1) m = decChars (n + 1) n :=
    List.reverse_injective hlist
  have := congrArg decodeChars this
  rwa [decodeChars_decChars (m + 1) m (by omega),
       decodeChars_decChars (n + 1) n (by omega)] at this

/-! ## `AutoIncrementingID` (from `src/AutoIncrementingID.ts`)

```ts
export class AutoIncrementingID {
  private static incrementor: number = 0;
  public static get nextID(): string {
    return (this.incrementor++).toString();
  }
  public static destroy() {
    this.incrementor = 0;
  }
}
```

The static `incrementor` is threaded explicitly as a `Nat`. -/

namespace AutoIncrementingID

/-- Model of `AutoIncrementingID.nextID`: returns the current counter rendered as a
string and post-increments the counter. -/
def nextID (incrementor : Nat) : String × Nat :=
  (decimalRepr incrementor, incrementor + 1)

/-- Model of `AutoIncrementingID.destroy`: resets the counter to zero. -/
def destroy (_incrementor : Nat) : Nat := 0

end AutoIncrementingID

/-! ## Data model of listener entries -/

/-- A fully resolved listener configuration. -/
structure ListenerConfig where
  keepAlive : Bool
  passive : Bool
deriving DecidableEq, Repr

/-- A (possibly partial) configuration object as passed by callers;
missing fields fall back to the documented defaults when merged
(`Object.assign({ keepAlive: false, passive: true }, config)`). -/
structure ListenerConfigArg where
  keepAlive : Option Bool
  passive : Option Bool
deriving DecidableEq, Repr

/-- Model of `Object.assign({ keepAlive: false, passive: true }, config)`. -/
def mergeConfig (c : ListenerConfigArg) : ListenerConfig :=
  { keepAlive := c.keepAlive.getD false, passive := c.passive.getD true }

/-- A stored listener entry (`MetricEvent` in `src/types.ts`): the
callback (identified by an abstract handle) and its resolved config. -/
structure MetricEvent where
  listener : Nat
  config : ListenerConfig
deriving DecidableEq, Repr

/-! ## JS `Map<string, MetricEvent>`: insertion-ordered slots -/

/-- One slot of a JS `Map`: a key together with its value, or `none` if
the slot has been tombstoned by `Map.prototype.delete`. -/
abbrev Slot := String × Option MetricEvent

/-- The slot list of a JS `Map`, in insertion order. -/
abbrev Slots := List Slot

/-- Model of `Map.prototype.get`: value of the (unique) live slot for `key`. -/
def slotsGet : Slots → String → Option MetricEvent
  | [], _ => none
  | (k, some v) :: rest, key => if k = key then some v else slotsGet rest key
  | (_, none) :: rest, key => slotsGet rest key

/-- Model of `Map.prototype.set`: overwrite the live slot for `key` in place if one
exists, otherwise append a fresh slot. -/
def slotsSet : Slots → String → MetricEvent → Slots
  | [], key, v => [(key, some v)]
  | (k, some w) :: rest, key, v =>
    if k = key then (k, some v) :: rest else (k, some w) :: slotsSet rest key v
  | (k, none) :: rest, key, v => (k, none) :: slotsSet rest key v

/-- Model of `Map.prototype.delete`: tombstone the first live slot for `key`;
also report whether a live slot was found. -/
def slotsDelete : Slots → String → Slots × Bool
  | [], _ => ([], false)
  | (k, some w) :: rest, key =>
    if k = key then ((k, none) :: rest, true)
    else
      let r := slotsDelete rest key
      ((k, some w) :: r.1, r.2)
  | (k, none) :: rest, key =>
    let r := slotsDelete rest key
    ((k, none) :: r.1, r.2)

/-- Model of `Map.prototype.size`: number of live slots. -/
def slotsSize (s : Slots) : Nat :=
  (s.filter (fun p => p.2.isSome)).length

/-- Keys of the live slots, in insertion order. -/
def liveKeys (s : Slots) : List String :=
  s.filterMap (fun p => p.2.map (fun _ => p.1))

/-- The live entries together with their keys, in insertion order. -/
def liveList (s : Slots) : List (String × MetricEvent) :=
  s.filterMap (fun p => p.2.map (fun v => (p.1, v)))

/-! ## `MetricIndexer` (from `src/MetricIndexer.ts`), non-bust operations -/

/-- The `MetricIndexer` instance state: the queue `Map` and the
`silenceWarnings` flag. -/
structure MetricIndexer where
  queue : Slots
  silenceWarnings : Bool
deriving DecidableEq, Repr

namespace MetricIndexer

/-- Model of `MetricIndexer.add`: draw `AutoIncrementingID.nextID` (the source
calls `.toString()` on it, which is the identity on a string), store the
entry under that id with the config merged over the defaults, and return
the id.  The allocator counter is threaded alongside. -/
def add (m : MetricIndexer) (incrementor : Nat) (listener : Nat)
    (config : ListenerConfigArg) : String × MetricIndexer × Nat :=
  let n := AutoIncrementingID.nextID incrementor
  (n.1,
   { m with queue := slotsSet m.queue n.1 ⟨listener, mergeConfig config⟩ },
   n.2)

/-- Model of `MetricIndexer.remove`: `this.queue.delete(id)`. -/
def remove (m : MetricIndexer) (id : String) : MetricIndexer × Bool :=
  let r := slotsDelete m.queue id
  ({ m with queue := r.1 }, r.2)

/-- Model of `MetricIndexer.get`: `this.queue.get(id)`. -/
def get (m : MetricIndexer) (id : String) : Option MetricEvent :=
  slotsGet m.queue id

/-- Model of `MetricIndexer.size`: `this.queue.size`. -/
def size (m : MetricIndexer) : Nat :=
  slotsSize m.queue

/-- The text thrown by `chubbinessCheck` (a JS template literal over the
event name). -/
def chubbinessMessage (event : String) : String :=
  "There are currently more than 20 listeners registered to \"" ++ event ++
  "\". It may be worth adding a new marker or measure to avoid polluting this event's queue. " ++
  "To silence this error, set MetricIndexer.silenceWarnings to false."

/-- Model of `MetricIndexer.chubbinessCheck`: throw when warnings are not silenced
and `this.queue.size > 19`. -/
def chubbinessCheck (m : MetricIndexer) (event : String) : Except String Unit :=
  if !m.silenceWarnings && decide (slotsSize m.queue > 19) then
    .error (chubbinessMessage event)
  else
    .ok ()

/-- Model of `MetricIndexer.destroy`: fresh empty `Map`, warnings re-enabled.  The
static `AutoIncrementingID` counter is a different object and is not
touched by this method. -/
def destroy (_m : MetricIndexer) : MetricIndexer :=
  { queue := [], silenceWarnings := false }

end MetricIndexer

/-! ## Re-entrant listener behaviour

A listener callback is an arbitrary JS function; the registry observes it
only through the re-entrant `add`/`remove` calls it performs on the same
registry while running.  The behaviour of the callback with handle `n` is
supplied by an environment assigning `n` a list of primitive actions. -/

/-- One re-entrant registry call performed by a listener body. -/
inductive Action where
  | removeId (id : String)
  | addListener (listener : Nat) (config : ListenerConfigArg)
deriving DecidableEq, Repr

/-- Behaviour environment: what the callback with a given handle does to
the registry when invoked. -/
abbrev Env := Nat → List Action

/-- The environment of callbacks that do not touch the registry. -/
def envPure : Env := fun _ => []

/-- A deferred unit of work scheduled by `bust` for a passive entry: the
`async` IIFE suspends at `await Promise.resolve()` having captured the
destructured `listener`, `keepAlive` and `id`. -/
structure Pend where
  listener : Nat
  keepAlive : Bool
  id : String
deriving DecidableEq, Repr

/-- State of the `queue.forEach` walk inside `bust`: `done` are the slots
the cursor has passed, `todo` the slots ahead of it (the queue is
`done ++ todo`), `ctr` the allocator counter, `trace` the invocations
performed so far and `pend` the deferred units scheduled so far. -/
structure BustSt (π : Type) where
  done : Slots
  todo : Slots
  ctr : Nat
  trace : List (Nat × π)
  pend : List Pend

/-- Model of `Map.prototype.delete` during iteration: the first live occurrence of
`key` over `done ++ todo` is tombstoned in place. -/
def deleteSt {π : Type} (s : BustSt π) (key : String) : BustSt π :=
  if (slotsGet s.done key).isSome then
    { s with done := (slotsDelete s.done key).1 }
  else
    { s with todo := (slotsDelete s.todo key).1 }

/-- Model of `Map.prototype.set` during iteration: overwrite the live slot for
`key` in place if one exists anywhere, else append a slot at the end of
the map — that is, at the end of `todo`, where the cursor will still
reach it. -/
def setSt {π : Type} (s : BustSt π) (key : String) (v : MetricEvent) : BustSt π :=
  if (slotsGet s.done key).isSome then
    { s with done := slotsSet s.done key v }
  else
    { s with todo := slotsSet s.todo key v }

/-- Interpret one re-entrant call of a running listener. -/
def applyAction {π : Type} (s : BustSt π) : Action → BustSt π
  | .removeId id => deleteSt s id
  | .addListener l cfg =>
    let n := AutoIncrementingID.nextID s.ctr
    setSt { s with ctr := n.2 } n.1 ⟨l, mergeConfig cfg⟩

/-- Interpret the body of a running listener. -/
def applyActions {π : Type} (s : BustSt π) : List Action → BustSt π
  | [] => s
  | a :: rest => applyActions (applyAction s a) rest

/-- The `queue.forEach` walk of `MetricIndexer.bust` (fuel-recursive: the
walk visits entries appended during the walk, so a listener that keeps
adding listeners makes the real loop run forever).  Per visited live slot:
a passive entry schedules its deferred unit; a non-passive entry is
invoked synchronously (recording the invocation, then interpreting the
listener's re-entrant calls) and then, unless `keepAlive`, deleted. -/
def bustGo {π : Type} (env : Env) (params : π) : Nat → BustSt π → BustSt π
  | 0, s => s
  | fuel + 1, s =>
    match s.todo with
    | [] => s
    | (id, none) :: rest =>
      bustGo env params fuel { s with done := s.done ++ [(id, none)], todo := rest }
    | (id, some ev) :: rest =>
      if ev.config.passive then
        bustGo env params fuel
          { s with done := s.done ++ [(id, some ev)], todo := rest,
                   pend := s.pend ++ [⟨ev.listener, ev.config.keepAlive, id⟩] }
      else
        let s1 : BustSt π :=
          { s with done := s.done ++ [(id, some ev)], todo := rest,
                   trace := s.trace ++ [(ev.listener, params)] }
        let s2 := applyActions s1 (env ev.listener)
        let s3 := if ev.config.keepAlive then s2 else deleteSt s2 id
        bustGo env params fuel s3

/-- The synchronous portion of `MetricIndexer.bust`: everything that runs
before control returns to the caller.  Returns the updated indexer and
allocator counter, the invocations already performed (all non-passive),
and the deferred units scheduled for the microtask queue. -/
def MetricIndexer.bustSync {π : Type} (env : Env) (params : π) (fuel : Nat)
    (m : MetricIndexer) (incrementor : Nat) :
    MetricIndexer × Nat × List (Nat × π) × List Pend :=
  let s := bustGo env params fuel ⟨[], m.queue, incrementor, [], []⟩
  ({ m with queue := s.done ++ s.todo }, s.ctr, s.trace, s.pend)

/-- Interpret one re-entrant call of a listener running in the deferred
phase (the map is no longer being iterated, so the plain operations
apply). -/
def runAction (st : MetricIndexer × Nat) : Action → MetricIndexer × Nat
  | .removeId id => ((st.1.remove id).1, st.2)
  | .addListener l cfg =>
    let r := st.1.add st.2 l cfg
    (r.2.1, r.2.2)

/-- Interpret the body of a listener running in the deferred phase. -/
def runActions (st : MetricIndexer × Nat) : List Action → MetricIndexer × Nat
  | [] => st
  | a :: rest => runActions (runAction st a) rest

/-- Drain the microtask queue in FIFO order.  Each deferred unit resumes
after its `await`: it invokes the captured `listener` with the captured
`params` — unconditionally, whether or not the entry is still in the
queue — and then, unless `keepAlive`, calls `this.queue.delete(id)`
(a no-op returning `false` when the entry is already gone). -/
def runPending {π : Type} (env : Env) (params : π) :
    List Pend → MetricIndexer × Nat × List (Nat × π) → MetricIndexer × Nat × List (Nat × π)
  | [], st => st
  | p :: rest, (m, c, tr) =>
    let tr1 := tr ++ [(p.listener, params)]
    let st1 := runActions (m, c) (env p.listener)
    let m2 := if p.keepAlive then st1.1 else (st1.1.remove p.id).1
    runPending env params rest (m2, st1.2, tr1)

/-- Model of `MetricIndexer.bust`, awaited to completion: the synchronous walk
followed by the drain of all the deferred units it scheduled
(`await Promise.allSettled(promises)`). -/
def MetricIndexer.bust {π : Type} (env : Env) (params : π) (fuel : Nat)
    (m : MetricIndexer) (incrementor : Nat) :
    MetricIndexer × Nat × List (Nat × π) :=
  let r := MetricIndexer.bustSync env params fuel m incrementor
  runPending env params r.2.2.2 (r.1, r.2.1, r.2.2.1)

/-- Iterate `n` successive awaited `bust` calls (threading the allocator). -/
def bustIter {π : Type} (env : Env) (params : π) (fuel : Nat) :
    Nat → MetricIndexer × Nat → MetricIndexer × Nat
  | 0, st => st
  | n + 1, st =>
    let r := MetricIndexer.bust env params fuel st.1 st.2
    bustIter env params fuel n (r.1, r.2.1)

/-! ## `MetricsQueue` facade (from `src/MetricsQueue.ts`) -/

/-- Model of `MetricsQueue.emitter`: the table of per-event registries (a JS
object keyed by event name). -/
structure MetricsQueue where
  emitter : List (String × MetricIndexer)
deriving DecidableEq, Repr

/-- Read `emitter[key]` (`none` when `key in emitter` is false). -/
def emGet : List (String × MetricIndexer) → String → Option MetricIndexer
  | [], _ => none
  | (k, v) :: rest, key => if k = key then some v else emGet rest key

/-- Write `emitter[key] = v` (overwrite in place, else append). -/
def emSet : List (String × MetricIndexer) → String → MetricIndexer →
    List (String × MetricIndexer)
  | [], key, v => [(key, v)]
  | (k, w) :: rest, key, v =>
    if k = key then (k, v) :: rest else (k, w) :: emSet rest key v

/-- Model of `delete emitter[key]`. -/
def emDelete : List (String × MetricIndexer) → String → List (String × MetricIndexer)
  | [], _ => []
  | (k, w) :: rest, key =>
    if k = key then rest else (k, w) :: emDelete rest key

namespace MetricsQueue

/-- Model of `MetricsQueue.checkForEmptyIndexer`: prune `emitter[key]` once its
registry is empty.  (Callers only invoke it with `key` present.) -/
def checkForEmptyIndexer (q : MetricsQueue) (key : String) : MetricsQueue :=
  match emGet q.emitter key with
  | some idx => if idx.size = 0 then { emitter := emDelete q.emitter key } else q
  | none => q

/-- Model of `MetricsQueue.onPluginEvent(metric, ...args)`: when a registry exists
for `metric`, bust it with `...args` — the rest arguments only, the
`metric` name itself having been consumed by the first parameter — and
prune the registry if it emptied.  Returns the invocation trace of the
bust. -/
def onPluginEvent {π : Type} (env : Env) (fuel : Nat) (metric : String) (args : π)
    (q : MetricsQueue) (incrementor : Nat) :
    MetricsQueue × Nat × List (Nat × π) :=
  match emGet q.emitter metric with
  | some idx =>
    let r := MetricIndexer.bust env args fuel idx incrementor
    let q1 : MetricsQueue := { emitter := emSet q.emitter metric r.1 }
    (q1.checkForEmptyIndexer metric, r.2.1, r.2.2)
  | none => (q, incrementor, [])

/-- Result of invoking a registered plugin callable: whether dispatch was
deferred past the current call stack, plus the dispatch outcome. -/
structure PluginResult (π : Type) where
  deferredDispatch : Bool
  state : MetricsQueue × Nat
  trace : List (Nat × π)

/-- The callable installed by `MetricsQueue.registerPlugins` for a plugin
declared with `processAfterCallStack`.  Both branches forward every
argument of the call unchanged to `onPluginEvent`
(`this.onPluginEvent.bind(this, ...args)` resp.
`this.onPluginEvent.bind(this)`); the option only decides whether the
dispatch runs immediately or as a deferred microtask, recorded here as
`deferredDispatch`. -/
def pluginCallable {π : Type} (processAfterCallStack : Bool) (env : Env) (fuel : Nat)
    (metric : String) (rest : π) (q : MetricsQueue) (incrementor : Nat) :
    PluginResult π :=
  let r := onPluginEvent env fuel metric rest q incrementor
  { deferredDispatch := processAfterCallStack, state := (r.1, r.2.1), trace := r.2.2 }

/-- Model of `MetricsQueue.removeEventListener`: when a registry exists for
`event`, delegate the removal, prune an emptied registry, and return
`true` (JS `true`, modelled `some true`) whether or not `callbackID` was
present; otherwise return `null` (modelled `none`). -/
def removeEventListener (q : MetricsQueue) (event : String) (callbackID : String) :
    MetricsQueue × Option Bool :=
  match emGet q.emitter event with
  | some idx =>
    let r := idx.remove callbackID
    let q1 : MetricsQueue := { emitter := emSet q.emitter event r.1 }
    (q1.checkForEmptyIndexer event, some true)
  | none => (q, none)

end MetricsQueue

/-! ## The timing-API middleware (from `src/MetricsQueue.ts`) -/

/-- Model of `MetricsQueue.safetyWrap`: run `func(...args)` in a try/catch; a
thrown error is passed to the optional handler and converted into a
`null` result (`none`) instead of propagating. -/
def safetyWrap {α ε β : Type} (func : α → Except ε β) (args : α)
    (catchFN : Option (ε → Unit)) : Option β :=
  match func args with
  | .ok b => some b
  | .error e =>
    match catchFN with
    | some f =>
      let _u := f e
      none
    | none => none

/-- Model of `MetricsQueue.markMiddleware`: run the saved original `mark` inside
`safetyWrap`, the closure assigning `performanceMark = mark?.apply(this,
args) ?? null` (so `performanceMark` keeps its initial `null` when the
original threw, and is `null` when no original is saved); then schedule
the deferred `onMark(performanceMark, args)` emission; then return
`performanceMark`.  The result is the returned value paired with the
payload of the deferred emission. -/
def markMiddleware {α ε μ : Type} (mark : Option (α → Except ε μ)) (args : α) :
    Option μ × Option μ × α :=
  let assignBody : Unit → Except ε (Option μ) := fun _ =>
    match mark with
    | none => .ok none
    | some f => (f args).map some
  let performanceMark : Option μ := (safetyWrap assignBody () none).getD none
  (performanceMark, performanceMark, args)

/-- Model of `MetricsQueue.measureMiddlware` (sic): identical shape to
`markMiddleware` with the saved original `measure`. -/
def measureMiddlware {α ε ν : Type} (measure : Option (α → Except ε ν)) (args : α) :
    Option ν × Option ν × α :=
  let assignBody : Unit → Except ε (Option ν) := fun _ =>
    match measure with
    | none => .ok none
    | some f => (f args).map some
  let performanceMeasure : Option ν := (safetyWrap assignBody () none).getD none
  (performanceMeasure, performanceMeasure, args)

/-- Modelled from the spec: the §6 "drop-in replacement" contract for the
installed `mark`/`measure` wrapper — identical return value and identical
thrown-error behaviour as the original entry point, the only addition
being the deferred bust payload. -/
def wrapperDropInSpec {α ε μ : Type} (orig : α → Except ε μ) (args : α) :
    Except ε (μ × μ × α) :=
  match orig args with
  | .ok r => .ok (r, r, args)
  | .error e => .error e

/-! ## Descriptive helpers used by the theorem statements -/

/-- What the synchronous walk of `bust` leaves of one slot when no
listener mutates the registry: a live non-passive non-keepAlive entry is
invoked and tombstoned; every other slot is untouched. -/
def processSlot : Slot → Slot
  | (id, some ev) =>
    if !ev.config.passive && !ev.config.keepAlive then (id, none) else (id, some ev)
  | (id, none) => (id, none)

/-- Slot-wise effect of the synchronous walk of `bust` (no re-entrant
mutation). -/
def processSync (s : Slots) : Slots := s.map processSlot

/-- What a completed (awaited) `bust` leaves of one slot when no listener
mutates the registry: only `keepAlive` entries stay live. -/
def processAllSlot : Slot → Slot
  | (id, some ev) => if ev.config.keepAlive then (id, some ev) else (id, none)
  | (id, none) => (id, none)

/-- Slot-wise effect of a completed (awaited) `bust` (no re-entrant
mutation). -/
def processAll (s : Slots) : Slots := s.map processAllSlot

/-- The invocations the synchronous walk performs, in order: the live
non-passive entries in insertion order, each with the bust arguments. -/
def syncTraceOf {π : Type} (params : π) (s : Slots) : List (Nat × π) :=
  ((liveList s).filter (fun p => !p.2.config.passive)).map (fun p => (p.2.listener, params))

/-- The deferred units the synchronous walk schedules, in order: one per
live passive entry, in insertion order. -/
def pendOf (s : Slots) : List Pend :=
  ((liveList s).filter (fun p => p.2.config.passive)).map
    (fun p => ⟨p.2.listener, p.2.config.keepAlive, p.1⟩)

/-- The invocations the deferred phase performs, in order: the live
passive entries in insertion order, each with the bust arguments. -/
def pendTraceOf {π : Type} (params : π) (s : Slots) : List (Nat × π) :=
  ((liveList s).filter (fun p => p.2.config.passive)).map (fun p => (p.2.listener, params))

/-- Tombstone a slot if it carries the given key. -/
def tombIf (key : String) (p : Slot) : Slot :=
  if p.1 = key then (p.1, none) else p

/-- Tombstone a slot if it carries one of the given keys. -/
def tombAll (keys : List String) (p : Slot) : Slot :=
  if p.1 ∈ keys then (p.1, none) else p

/-- The ids the deferred phase deletes: those of the scheduled units with
`keepAlive = false`. -/
def delIds (P : List Pend) : List String :=
  (P.filter (fun p => !p.keepAlive)).map (fun p => p.id)

/-- The stream of `AutoIncrementingID.nextID` values: the ids produced by
`n` successive calls starting from a given counter value. -/
def nextIDs : Nat → Nat → List String
  | 0, _ => []
  | n + 1, ctr =>
    let r := AutoIncrementingID.nextID ctr
    r.1 :: nextIDs n r.2

/-- A sequence of `MetricIndexer.add` calls (listener handle and config
for each), returning the ids handed back in call order. -/
def addSeq : List (Nat × ListenerConfigArg) → MetricIndexer → Nat →
    List String × MetricIndexer × Nat
  | [], m, ctr => ([], m, ctr)
  | (l, cfg) :: rest, m, ctr =>
    let r := m.add ctr l cfg
    let rr := addSeq rest r.2.1 r.2.2
    (r.1 :: rr.1, rr.2)

/-! ## Basic lemmas about the slot model -/

theorem liveKeys_append (a b : Slots) :
    liveKeys (a ++ b) = liveKeys a ++ liveKeys b := by
  simp [liveKeys, List.filterMap_append]

theorem liveKeys_cons_some (id : String) (ev : MetricEvent) (rest : Slots) :
    liveKeys ((id, some ev) :: rest) = id :: liveKeys rest := rfl

theorem liveKeys_cons_none (id : String) (rest : Slots) :
    liveKeys ((id, none) :: rest) = liveKeys rest := rfl

theorem liveList_cons_some (id : String) (ev : MetricEvent) (rest : Slots) :
    liveList ((id, some ev) :: rest) = (id, ev) :: liveList rest := rfl

theorem liveList_cons_none (id : String) (rest : Slots) :
    liveList ((id, none) :: rest) = liveList rest := rfl

theorem slotsGet_isSome_iff (s : Slots) (key : String) :
    (slotsGet s key).isSome = true ↔ key ∈ liveKeys s := by
  induction s with
  | nil => simp [slotsGet, liveKeys]
  | cons hd tl ih =>
    obtain ⟨k, v⟩ := hd
    cases v with
    | none => simpa [slotsGet, liveKeys_cons_none] using ih
    | some ev =>
      by_cases h : k = key
      · subst h
        simp [slotsGet, liveKeys_cons_some]
      · have h' : ¬key = k := fun hk => h hk.symm
        simp [slotsGet, h, liveKeys_cons_some, List.mem_cons, h', ih]

theorem slotsDelete_not_live (s : Slots) (key : String) (h : key ∉ liveKeys s) :
    slotsDelete s key = (s, false) := by
  induction s with
  | nil => rfl
  | cons hd tl ih =>
    obtain ⟨k, v⟩ := hd
    cases v with
    | none =>
      rw [liveKeys_cons_none] at h
      simp [slotsDelete, ih h]
    | some ev =>
      rw [liveKeys_cons_some] at h
      have hk : ¬k = key := fun hk => h (hk ▸ List.mem_cons_self _ _)
      have htl : key ∉ liveKeys tl := fun hm => h (List.mem_cons_of_mem _ hm)
      simp [slotsDelete, hk, ih htl]

theorem slotsGet_append_singleton (d : Slots) (key : String) (ev : MetricEvent)
    (h : key ∉ liveKeys d) :
    slotsGet (d ++ [(key, some ev)]) key = some ev := by
  induction d with
  | nil => simp [slotsGet]
  | cons hd tl ih =>
    obtain ⟨k, v⟩ := hd
    cases v with
    | none =>
      rw [liveKeys_cons_none] at h
      simpa [slotsGet] using ih h
    | some w =>
      rw [liveKeys_cons_some] at h
      have hk : ¬k = key := fun hk => h (hk ▸ List.mem_cons_self _ _)
      have htl : key ∉ liveKeys tl := fun hm => h (List.mem_cons_of_mem _ hm)
      simpa [slotsGet, hk] using ih htl

theorem slotsDelete_append_singleton (d : Slots) (key : String) (ev : MetricEvent)
    (h : key ∉ liveKeys d) :
    slotsDelete (d ++ [(key, some ev)]) key = (d ++ [(key, none)], true) := by
  induction d with
  | nil => simp [slotsDelete]
  | cons hd tl ih =>
    obtain ⟨k, v⟩ := hd
    cases v with
    | none =>
      rw [liveKeys_cons_none] at h
      simp [slotsDelete, ih h]
    | some w =>
      rw [liveKeys_cons_some] at h
      have hk : ¬k = key := fun hk => h (hk ▸ List.mem_cons_self _ _)
      have htl : key ∉ liveKeys tl := fun hm => h (List.mem_cons_of_mem _ hm)
      simp [slotsDelete, hk, ih htl]

theorem tombIf_none (key k : String) : tombIf key (k, none) = (k, none) := by
  by_cases h : k = key <;> simp [tombIf, h]

theorem map_tombIf_not_live (s : Slots) (key : String) (h : key ∉ liveKeys s) :
    s.map (tombIf key) = s := by
  induction s with
  | nil => rfl
  | cons hd tl ih =>
    obtain ⟨k, v⟩ := hd
    cases v with
    | none =>
      rw [liveKeys_cons_none] at h
      simp [tombIf_none, ih h]
    | some ev =>
      rw [liveKeys_cons_some] at h
      have hk : ¬k = key := fun hk => h (hk ▸ List.mem_cons_self _ _)
      have htl : key ∉ liveKeys tl := fun hm => h (List.mem_cons_of_mem _ hm)
      simp [tombIf, hk, ih htl]

theorem slotsDelete_map_tombIf (s : Slots) (key : String) (h : (liveKeys s).Nodup) :
    (slotsDelete s key).1 = s.map (tombIf key) := by
  induction s with
  | nil => rfl
  | cons hd tl ih =>
    obtain ⟨k, v⟩ := hd
    cases v with
    | none =>
      rw [liveKeys_cons_none] at h
      simp [slotsDelete, tombIf_none, ih h]
    | some ev =>
      rw [liveKeys_cons_some] at h
      rcases List.nodup_cons.mp h with ⟨hk, htl⟩
      by_cases hkey : k = key
      · subst hkey
        simp [slotsDelete, tombIf, map_tombIf_not_live tl k hk]
      · simp [slotsDelete, hkey, tombIf, ih htl]

theorem liveKeys_map_tombIf (s : Slots) (key : String) :
    liveKeys (s.map (tombIf key)) = (liveKeys s).filter (fun k => k ≠ key) := by
  induction s with
  | nil => rfl
  | cons hd tl ih =>
    obtain ⟨k, v⟩ := hd
    cases v with
    | none =>
      simpa [tombIf_none, liveKeys_cons_none] using ih
    | some ev =>
      by_cases hkey : k = key
      · subst hkey
        simp [tombIf, liveKeys_cons_some, liveKeys_cons_none, List.filter_cons, ih]
      · simp [tombIf, hkey, liveKeys_cons_some, List.filter_cons, ih]

theorem tombAll_tombIf (ds : List String) (key : String) (p : Slot) :
    tombAll ds (tombIf key p) = tombAll (key :: ds) p := by
  obtain ⟨k, v⟩ := p
  by_cases hk : k = key
  · subst hk
    by_cases hd : k ∈ ds <;> simp [tombIf, tombAll, hd, List.mem_cons]
  · by_cases hd : k ∈ ds <;>
      simp [tombIf, tombAll, hk, hd, List.mem_cons]

theorem map_tombAll_cons_not_live (s : Slots) (key : String) (ds : List String)
    (h : key ∉ liveKeys s) :
    s.map (tombAll (key :: ds)) = s.map (tombAll ds) := by
  induction s with
  | nil => rfl
  | cons hd tl ih =>
    obtain ⟨k, v⟩ := hd
    cases v with
    | none =>
      rw [liveKeys_cons_none] at h
      by_cases hd2 : k ∈ ds
      · simp [tombAll, List.mem_cons, hd2, ih h]
      · by_cases hk : k = key <;> simp [tombAll, List.mem_cons, hd2, hk, ih h]
    | some ev =>
      rw [liveKeys_cons_some] at h
      have hk : ¬k = key := fun hk => h (hk ▸ List.mem_cons_self _ _)
      have htl : key ∉ liveKeys tl := fun hm => h (List.mem_cons_of_mem _ hm)
      by_cases hd2 : k ∈ ds <;>
        simp [tombAll, List.mem_cons, hd2, hk, ih htl]

theorem mem_liveList_key (s : Slots) (q : String × MetricEvent) (h : q ∈ liveList s) :
    q.1 ∈ liveKeys s := by
  induction s with
  | nil => simp [liveList] at h
  | cons hd tl ih =>
    obtain ⟨k, v⟩ := hd
    cases v with
    | none =>
      rw [liveList_cons_none] at h
      rw [liveKeys_cons_none]
      exact ih h
    | some ev =>
      rw [liveList_cons_some] at h
      rw [liveKeys_cons_some]
      rcases List.mem_cons.mp h with h1 | h2
      · subst h1
        exact List.mem_cons_self _ _
      · exact List.mem_cons_of_mem _ (ih h2)

theorem delIds_pendOf_mem_liveKeys (s : Slots) :
    ∀ x ∈ delIds (pendOf s), x ∈ liveKeys s := by
  intro x hx
  simp only [delIds, pendOf, List.mem_map, List.mem_filter] at hx
  obtain ⟨p, ⟨⟨q, ⟨hq, _⟩, rfl⟩, _⟩, rfl⟩ := hx
  exact mem_liveList_key s q hq

theorem slotsSize_eq_length_liveList (s : Slots) :
    slotsSize s = (liveList s).length := by
  induction s with
  | nil => rfl
  | cons hd tl ih =>
    obtain ⟨k, v⟩ := hd
    cases v with
    | none => simpa [slotsSize, liveList, List.filter_cons] using ih
    | some ev =>
      simp only [slotsSize, List.filter_cons] at ih ⊢
      simp [liveList_cons_some, ih]

/-! ## The synchronous walk with non-mutating listeners -/

theorem map_tombAll_nil (s : Slots) : s.map (tombAll []) = s := by
  induction s with
  | nil => rfl
  | cons hd tl ih => simp [tombAll, ih]

theorem liveKeys_processSync_sublist (s : Slots) :
    (liveKeys (processSync s)).Sublist (liveKeys s) := by
  induction s with
  | nil => simp [processSync]
  | cons hd tl ih =>
    obtain ⟨k, v⟩ := hd
    cases v with
    | none =>
      simpa [processSync, processSlot, liveKeys_cons_none] using ih
    | some ev =>
      by_cases hc : (!ev.config.passive && !ev.config.keepAlive) = true
      · have hs : processSlot (k, some ev) = (k, none) := by
          simp [processSlot, hc]
        simp only [processSync, List.map_cons, hs]
        rw [liveKeys_cons_none, liveKeys_cons_some]
        exact ih.cons _
      · have hs : processSlot (k, some ev) = (k, some ev) := by
          simp [processSlot, hc]
        simp only [processSync, List.map_cons, hs]
        rw [liveKeys_cons_some, liveKeys_cons_some]
        exact ih.cons₂ _

theorem bustGo_pure {π : Type} (params : π) :
    ∀ (todo : Slots) (fuel : Nat) (done : Slots) (ctr : Nat)
      (tr : List (Nat × π)) (pend : List Pend),
      (liveKeys (done ++ todo)).Nodup →
      todo.length ≤ fuel →
      bustGo envPure params fuel ⟨done, todo, ctr, tr, pend⟩ =
        ⟨done ++ processSync todo, [], ctr, tr ++ syncTraceOf params todo,
         pend ++ pendOf todo⟩ := by
  intro todo
  induction todo with
  | nil =>
    intro fuel done ctr tr pend _ _
    cases fuel with
    | zero => simp [bustGo, processSync, syncTraceOf, pendOf, liveList]
    | succ f => simp [bustGo, processSync, syncTraceOf, pendOf, liveList]
  | cons hd rest ih =>
    intro fuel done ctr tr pend hnd hlen
    obtain ⟨id, v⟩ := hd
    cases fuel with
    | zero => exact absurd hlen (by simp)
    | succ f =>
      have hlen' : rest.length ≤ f := by simpa using hlen
      cases v with
      | none =>
        have hnd' : (liveKeys ((done ++ [(id, none)]) ++ rest)).Nodup := by
          have he : (done ++ [(id, none)]) ++ rest = done ++ ((id, none) :: rest) := by
            simp
          rw [he]
          exact hnd
        simp only [bustGo]
        rw [ih f (done ++ [(id, none)]) ctr tr pend hnd' hlen']
        simp [processSync, processSlot, syncTraceOf, pendOf, liveList_cons_none]
      | some ev =>
        have hnd0 := hnd
        rw [liveKeys_append, liveKeys_cons_some] at hnd0
        rcases List.nodup_append.mp hnd0 with ⟨hnd_done, hnd_cons, hdisj⟩
        rcases List.nodup_cons.mp hnd_cons with ⟨hid_rest, hnd_rest⟩
        have hid_done : id ∉ liveKeys done := fun hm =>
          hdisj hm (List.mem_cons_self _ _)
        by_cases hp : ev.config.passive = true
        · have hnd' : (liveKeys ((done ++ [(id, some ev)]) ++ rest)).Nodup := by
            have he : (done ++ [(id, some ev)]) ++ rest
                = done ++ ((id, some ev) :: rest) := by simp
            rw [he]
            exact hnd
          simp only [bustGo, hp, if_true]
          rw [ih f _ _ _ _ hnd' hlen']
          simp [processSync, processSlot, hp, syncTraceOf, pendOf,
            liveList_cons_some, List.filter_cons]
        · have hpf : ev.config.passive = false := by
            cases hcp : ev.config.passive
            · rfl
            · exact absurd hcp hp
          by_cases hk : ev.config.keepAlive = true
          · have hnd' : (liveKeys ((done ++ [(id, some ev)]) ++ rest)).Nodup := by
              have he : (done ++ [(id, some ev)]) ++ rest
                  = done ++ ((id, some ev) :: rest) := by simp
              rw [he]
              exact hnd
            simp only [bustGo, hpf, if_false, envPure, applyActions, hk, if_true]
            rw [ih f (done ++ [(id, some ev)]) ctr (tr ++ [(ev.listener, params)])
              pend hnd' hlen']
            simp [processSync, processSlot, hpf, hk, syncTraceOf, pendOf,
              liveList_cons_some, List.filter_cons]
          · have hkf : ev.config.keepAlive = false := by
              cases hck : ev.config.keepAlive
              · rfl
              · exact absurd hck hk
            have hget : (slotsGet (done ++ [(id, some ev)]) id).isSome = true := by
              rw [slotsGet_append_singleton done id ev hid_done]
              rfl
            have hdel : (slotsDelete (done ++ [(id, some ev)]) id).1
                = done ++ [(id, none)] := by
              rw [slotsDelete_append_singleton done id ev hid_done]
            have hnd' : (liveKeys ((done ++ [(id, none)]) ++ rest)).Nodup := by
              have he : liveKeys ((done ++ [(id, none)]) ++ rest)
                  = liveKeys done ++ liveKeys rest := by
                simp [liveKeys_append, liveKeys]
              rw [he]
              exact List.nodup_append.mpr
                ⟨hnd_done, hnd_rest,
                 fun _ ha hb => hdisj ha (List.mem_cons_of_mem _ hb)⟩
            simp only [bustGo, hpf, if_false, envPure, applyActions, hkf,
              Bool.false_eq_true, deleteSt, hget, if_true, hdel]
            rw [ih f (done ++ [(id, none)]) ctr (tr ++ [(ev.listener, params)])
              pend hnd' hlen']
            simp [processSync, processSlot, hpf, hkf, syncTraceOf, pendOf,
              liveList_cons_some, List.filter_cons]

/-- The synchronous portion of an unmutated `bust`: non-passive entries
are invoked in insertion order, passive entries are scheduled in
insertion order, non-passive non-keepAlive entries are retired, and the
allocator is untouched. -/
theorem bustSync_pure {π : Type} (params : π) (fuel : Nat) (m : MetricIndexer)
    (ctr : Nat) (hnd : (liveKeys m.queue).Nodup) (hlen : m.queue.length ≤ fuel) :
    MetricIndexer.bustSync envPure params fuel m ctr =
      ({ m with queue := processSync m.queue }, ctr,
       syncTraceOf params m.queue, pendOf m.queue) := by
  unfold MetricIndexer.bustSync
  rw [bustGo_pure params m.queue fuel [] ctr [] [] (by simpa using hnd) hlen]
  simp

/-- The deferred phase: every scheduled unit is run in FIFO order —
invoking its captured listener unconditionally — and the non-keepAlive
ids among them are deleted. -/
theorem runPending_pure {π : Type} (params : π) :
    ∀ (P : List Pend) (m : MetricIndexer) (c : Nat) (tr : List (Nat × π)),
      (liveKeys m.queue).Nodup →
      runPending envPure params P (m, c, tr) =
        ({ m with queue := m.queue.map (tombAll (delIds P)) }, c,
         tr ++ P.map (fun p => (p.listener, params))) := by
  intro P
  induction P with
  | nil =>
    intro m c tr _
    simp [runPending, delIds, map_tombAll_nil]
  | cons p rest ih =>
    intro m c tr hnd
    by_cases hka : p.keepAlive = true
    · simp only [runPending, runActions, envPure, hka, if_true]
      rw [ih m c (tr ++ [(p.listener, params)]) hnd]
      simp [delIds, List.filter_cons, hka]
    · have hkf : p.keepAlive = false := by
        cases hck : p.keepAlive
        · rfl
        · exact absurd hck hka
      have hq : ((m.remove p.id).1).queue = m.queue.map (tombIf p.id) := by
        simp [MetricIndexer.remove, slotsDelete_map_tombIf m.queue p.id hnd]
      have hnd' : (liveKeys (((m.remove p.id).1).queue)).Nodup := by
        rw [hq, liveKeys_map_tombIf]
        exact hnd.filter _
      have hmaps : ((m.remove p.id).1).queue.map (tombAll (delIds rest))
          = m.queue.map (tombAll (p.id :: delIds rest)) := by
        rw [hq, List.map_map]
        exact List.map_congr_left (fun q _ => tombAll_tombIf (delIds rest) p.id q)
      have hdel2 : delIds (p :: rest) = p.id :: delIds rest := by
        simp [delIds, List.filter_cons, hkf]
      have hsil : ((m.remove p.id).1).silenceWarnings = m.silenceWarnings := rfl
      simp only [runPending, runActions, envPure, hkf, Bool.false_eq_true, if_false]
      rw [ih ((m.remove p.id).1) c (tr ++ [(p.listener, params)]) hnd']
      rw [hmaps, hdel2, hsil]
      simp

theorem processSync_cons (p : Slot) (s : Slots) :
    processSync (p :: s) = processSlot p :: processSync s := rfl

theorem processAll_cons (p : Slot) (s : Slots) :
    processAll (p :: s) = processAllSlot p :: processAll s := rfl

/-- Pointwise description of "retire the synchronously retired entries,
then delete the deferred non-keepAlive ids": only `keepAlive` entries
survive. -/
theorem processSync_tombAll (s : Slots) (h : (liveKeys s).Nodup) :
    (processSync s).map (tombAll (delIds (pendOf s))) = processAll s := by
  induction s with
  | nil => rfl
  | cons hd tl ih =>
    obtain ⟨id, v⟩ := hd
    rw [processSync_cons, processAll_cons, List.map_cons]
    cases v with
    | none =>
      rw [liveKeys_cons_none] at h
      have hpend : pendOf ((id, none) :: tl) = pendOf tl := by
        simp [pendOf, liveList_cons_none]
      rw [hpend]
      congr 1
      · by_cases hm : id ∈ delIds (pendOf tl) <;>
          simp [processSlot, processAllSlot, tombAll, hm]
      · exact ih h
    | some ev =>
      rw [liveKeys_cons_some] at h
      rcases List.nodup_cons.mp h with ⟨hid_tl, hnd_tl⟩
      have hid_del : id ∉ delIds (pendOf tl) := fun hm =>
        hid_tl (delIds_pendOf_mem_liveKeys tl id hm)
      have hid_sync : id ∉ liveKeys (processSync tl) := fun hm =>
        hid_tl ((liveKeys_processSync_sublist tl).subset hm)
      by_cases hp : ev.config.passive = true
      · by_cases hk : ev.config.keepAlive = true
        · have hdel : delIds (pendOf ((id, some ev) :: tl)) = delIds (pendOf tl) := by
            simp [pendOf, liveList_cons_some, List.filter_cons, hp, delIds, hk]
          rw [hdel]
          congr 1
          · simp [processSlot, processAllSlot, tombAll, hp, hk, hid_del]
          · exact ih hnd_tl
        · have hkf : ev.config.keepAlive = false := by
            cases hck : ev.config.keepAlive
            · rfl
            · exact absurd hck hk
          have hdel : delIds (pendOf ((id, some ev) :: tl))
              = id :: delIds (pendOf tl) := by
            simp [pendOf, liveList_cons_some, List.filter_cons, hp, delIds, hkf]
          rw [hdel]
          congr 1
          · simp [processSlot, processAllSlot, tombAll, hp, hkf, List.mem_cons]
          · rw [map_tombAll_cons_not_live (processSync tl) id (delIds (pendOf tl))
              hid_sync]
            exact ih hnd_tl
      · have hpf : ev.config.passive = false := by
          cases hcp : ev.config.passive
          · rfl
          · exact absurd hcp hp
        have hdel : delIds (pendOf ((id, some ev) :: tl)) = delIds (pendOf tl) := by
          simp [pendOf, liveList_cons_some, List.filter_cons, hpf]
        rw [hdel]
        by_cases hk : ev.config.keepAlive = true
        · congr 1
          · simp [processSlot, processAllSlot, tombAll, hpf, hk, hid_del]
          · exact ih hnd_tl
        · have hkf : ev.config.keepAlive = false := by
            cases hck : ev.config.keepAlive
            · rfl
            · exact absurd hck hk
          congr 1
          · by_cases hm : id ∈ delIds (pendOf tl) <;>
              simp [processSlot, processAllSlot, tombAll, hpf, hkf, hm]
          · exact ih hnd_tl

theorem pendOf_map_trace {π : Type} (params : π) (s : Slots) :
    (pendOf s).map (fun p => (p.listener, params)) = pendTraceOf params s := by
  simp [pendOf, pendTraceOf, List.map_map, Function.comp]

/-- A completed (awaited) `bust` with non-mutating listeners: the
invocation trace is the live non-passive entries in insertion order
followed by the live passive entries in insertion order, each invoked
exactly once with the bust arguments; only `keepAlive` entries survive;
the allocator is untouched. -/
theorem bust_pure {π : Type} (params : π) (fuel : Nat) (m : MetricIndexer)
    (ctr : Nat) (hnd : (liveKeys m.queue).Nodup) (hlen : m.queue.length ≤ fuel) :
    MetricIndexer.bust envPure params fuel m ctr =
      ({ m with queue := processAll m.queue }, ctr,
       syncTraceOf params m.queue ++ pendTraceOf params m.queue) := by
  unfold MetricIndexer.bust
  rw [bustSync_pure params fuel m ctr hnd hlen]
  have hnd' : (liveKeys (processSync m.queue)).Nodup :=
    hnd.sublist (liveKeys_processSync_sublist m.queue)
  have hrun := runPending_pure params (pendOf m.queue)
    { m with queue := processSync m.queue } ctr (syncTraceOf params m.queue) hnd'
  simp only at hrun
  rw [hrun]
  rw [processSync_tombAll m.queue hnd, pendOf_map_trace]

/-! ## Characterisations of the surviving entries -/

theorem liveList_processSync (s : Slots) :
    liveList (processSync s) =
      (liveList s).filter (fun q => q.2.config.passive || q.2.config.keepAlive) := by
  induction s with
  | nil => rfl
  | cons hd tl ih =>
    obtain ⟨id, v⟩ := hd
    rw [processSync_cons]
    cases v with
    | none =>
      show liveList ((id, none) :: processSync tl) = _
      rw [liveList_cons_none, ih, liveList_cons_none]
    | some ev =>
      have hno : (!ev.config.passive && !ev.config.keepAlive)
          = !(ev.config.passive || ev.config.keepAlive) := (Bool.not_or _ _).symm
      cases hpk : (ev.config.passive || ev.config.keepAlive) with
      | false =>
        have hs : processSlot (id, some ev) = (id, none) := by
          simp [processSlot, hno, hpk]
        rw [hs, liveList_cons_none, ih, liveList_cons_some, List.filter_cons]
        simp [hpk]
      | true =>
        have hs : processSlot (id, some ev) = (id, some ev) := by
          simp [processSlot, hno, hpk]
        rw [hs, liveList_cons_some, ih, liveList_cons_some, List.filter_cons]
        simp [hpk]

theorem liveList_processAll (s : Slots) :
    liveList (processAll s) = (liveList s).filter (fun q => q.2.config.keepAlive) := by
  induction s with
  | nil => rfl
  | cons hd tl ih =>
    obtain ⟨id, v⟩ := hd
    rw [processAll_cons]
    cases v with
    | none =>
      show liveList ((id, none) :: processAll tl) = _
      rw [liveList_cons_none, ih, liveList_cons_none]
    | some ev =>
      cases hk : ev.config.keepAlive with
      | false =>
        have hs : processAllSlot (id, some ev) = (id, none) := by
          simp [processAllSlot, hk]
        rw [hs, liveList_cons_none, ih, liveList_cons_some, List.filter_cons]
        simp [hk]
      | true =>
        have hs : processAllSlot (id, some ev) = (id, some ev) := by
          simp [processAllSlot, hk]
        rw [hs, liveList_cons_some, ih, liveList_cons_some, List.filter_cons]
        simp [hk]

theorem liveKeys_processAll_sublist (s : Slots) :
    (liveKeys (processAll s)).Sublist (liveKeys s) := by
  induction s with
  | nil => simp [processAll]
  | cons hd tl ih =>
    obtain ⟨k, v⟩ := hd
    rw [processAll_cons]
    cases v with
    | none =>
      show (liveKeys ((k, none) :: processAll tl)).Sublist _
      rw [liveKeys_cons_none, liveKeys_cons_none]
      exact ih
    | some ev =>
      cases hk : ev.config.keepAlive with
      | false =>
        have hs : processAllSlot (k, some ev) = (k, none) := by
          simp [processAllSlot, hk]
        rw [hs, liveKeys_cons_none, liveKeys_cons_some]
        exact ih.cons _
      | true =>
        have hs : processAllSlot (k, some ev) = (k, some ev) := by
          simp [processAllSlot, hk]
        rw [hs, liveKeys_cons_some, liveKeys_cons_some]
        exact ih.cons₂ _

theorem processAllSlot_idem (p : Slot) :
    processAllSlot (processAllSlot p) = processAllSlot p := by
  obtain ⟨id, v⟩ := p
  cases v with
  | none => rfl
  | some ev => cases hk : ev.config.keepAlive <;> simp [processAllSlot, hk]

theorem processAll_idem (s : Slots) : processAll (processAll s) = processAll s := by
  simp only [processAll, List.map_map]
  exact List.map_congr_left (fun p _ => processAllSlot_idem p)

theorem liveKeys_eq_map_fst_liveList (s : Slots) :
    liveKeys s = (liveList s).map Prod.fst := by
  induction s with
  | nil => rfl
  | cons hd tl ih =>
    obtain ⟨k, v⟩ := hd
    cases v with
    | none => rw [liveKeys_cons_none, liveList_cons_none, ih]
    | some ev => rw [liveKeys_cons_some, liveList_cons_some, List.map_cons, ih]

theorem slotsGet_eq_none (s : Slots) (key : String) (h : key ∉ liveKeys s) :
    slotsGet s key = none := by
  cases hg : slotsGet s key with
  | none => rfl
  | some v =>
    exact absurd ((slotsGet_isSome_iff s key).mp (by simp [hg])) h

theorem mem_liveList_slotsGet (s : Slots) (q : String × MetricEvent)
    (hnd : (liveKeys s).Nodup) (h : q ∈ liveList s) :
    slotsGet s q.1 = some q.2 := by
  induction s with
  | nil => simp [liveList] at h
  | cons hd tl ih =>
    obtain ⟨k, v⟩ := hd
    cases v with
    | none =>
      rw [liveList_cons_none] at h
      rw [liveKeys_cons_none] at hnd
      show slotsGet ((k, none) :: tl) q.1 = some q.2
      simp only [slotsGet]
      exact ih hnd h
    | some ev =>
      rw [liveList_cons_some] at h
      rw [liveKeys_cons_some] at hnd
      rcases List.nodup_cons.mp hnd with ⟨hk_tl, hnd_tl⟩
      rcases List.mem_cons.mp h with h1 | h2
      · subst h1
        simp [slotsGet]
      · have hq1 : ¬k = q.1 := by
          intro he
          exact hk_tl (he ▸ mem_liveList_key tl q h2)
        simp only [slotsGet, hq1, if_false]
        exact ih hnd_tl h2

theorem liveList_key_inj (s : Slots) (hnd : (liveKeys s).Nodup)
    (q q' : String × MetricEvent) (hq : q ∈ liveList s) (hq' : q' ∈ liveList s)
    (he : q.1 = q'.1) : q = q' := by
  have h1 := mem_liveList_slotsGet s q hnd hq
  have h2 := mem_liveList_slotsGet s q' hnd hq'
  rw [he, h2] at h1
  obtain ⟨a, b⟩ := q
  obtain ⟨a', b'⟩ := q'
  simp only at he h1
  rw [he, (Option.some_inj.mp h1)]

/-- Iterating an unmutated awaited `bust` one or more times always leaves
exactly `processAll` of the original queue, and never touches the
allocator. -/
theorem bustIter_pure {π : Type} (params : π) (fuel : Nat) :
    ∀ (n : Nat) (m : MetricIndexer) (ctr : Nat),
      (liveKeys m.queue).Nodup → m.queue.length ≤ fuel →
      bustIter envPure params fuel (n + 1) (m, ctr)
        = ({ m with queue := processAll m.queue }, ctr) := by
  intro n
  induction n with
  | zero =>
    intro m ctr hnd hlen
    show bustIter envPure params fuel 1 (m, ctr) = _
    simp only [bustIter]
    rw [bust_pure params fuel m ctr hnd hlen]
  | succ n ih =>
    intro m ctr hnd hlen
    have hstep : bustIter envPure params fuel (n + 2) (m, ctr)
        = bustIter envPure params fuel (n + 1)
          ((MetricIndexer.bust envPure params fuel m ctr).1,
           (MetricIndexer.bust envPure params fuel m ctr).2.1) := rfl
    rw [hstep, bust_pure params fuel m ctr hnd hlen]
    have hnd' : (liveKeys (processAll m.queue)).Nodup :=
      hnd.sublist (liveKeys_processAll_sublist m.queue)
    have hlen' : (processAll m.queue).length ≤ fuel := by
      simpa [processAll] using hlen
    have hih := ih { m with queue := processAll m.queue } ctr hnd' hlen'
    show bustIter envPure params fuel (n + 1)
        ({ m with queue := processAll m.queue }, ctr) = _
    simp only at hih
    rw [hih, processAll_idem]

/-! ## The claims -/

/-- C1: for every Registry holding N listeners all registered with
`passive = false` and `keepAlive = false` (none of them mutating the
registry re-entrantly), a single call to `bust` invokes each of the N
callbacks exactly once with the bust arguments, synchronously in
insertion order, before the synchronous portion of `bust` returns —
nothing is deferred — and afterwards the Registry's `size` is `0`. -/
theorem C1_nonpassive_delivery {π : Type} (params : π) (fuel ctr : Nat)
    (m : MetricIndexer)
    (hcfg : ∀ q ∈ liveList m.queue, q.2.config = ⟨false, false⟩)
    (hnd : (liveKeys m.queue).Nodup)
    (hlen : m.queue.length ≤ fuel) :
    (MetricIndexer.bustSync envPure params fuel m ctr).2.2.1
        = (liveList m.queue).map (fun q => (q.2.listener, params)) ∧
    (MetricIndexer.bustSync envPure params fuel m ctr).2.2.2 = [] ∧
    (MetricIndexer.bustSync envPure params fuel m ctr).1.size = 0 ∧
    (MetricIndexer.bustSync envPure params fuel m ctr).2.1 = ctr := by
  rw [bustSync_pure params fuel m ctr hnd hlen]
  have hfp : (liveList m.queue).filter (fun q => !q.2.config.passive)
      = liveList m.queue :=
    List.filter_eq_self.mpr (fun q hq => by rw [hcfg q hq]; rfl)
  have hfn : (liveList m.queue).filter (fun q => q.2.config.passive) = [] :=
    List.filter_eq_nil_iff.mpr (fun q hq => by rw [hcfg q hq]; simp)
  refine ⟨?_, ?_, ?_, rfl⟩
  · simp only [syncTraceOf, hfp]
  · simp only [pendOf, hfn, List.map_nil]
  · show slotsSize (processSync m.queue) = 0
    rw [slotsSize_eq_length_liveList, liveList_processSync]
    rw [List.filter_eq_nil_iff.mpr (fun q hq => by rw [hcfg q hq]; simp)]
    rfl

/-- Witness for C1: a concrete two-listener registry, busted once. -/
theorem C1_nonpassive_delivery_witness :
    (MetricIndexer.bustSync envPure (3 : Nat) 2
        ⟨[("0", some ⟨7, ⟨false, false⟩⟩), ("1", some ⟨8, ⟨false, false⟩⟩)], false⟩
        2).2.2.1 = [(7, 3), (8, 3)] ∧
    (MetricIndexer.bustSync envPure (3 : Nat) 2
        ⟨[("0", some ⟨7, ⟨false, false⟩⟩), ("1", some ⟨8, ⟨false, false⟩⟩)], false⟩
        2).2.2.2 = [] ∧
    (MetricIndexer.bustSync envPure (3 : Nat) 2
        ⟨[("0", some ⟨7, ⟨false, false⟩⟩), ("1", some ⟨8, ⟨false, false⟩⟩)], false⟩
        2).1.size = 0 := by
  have h := C1_nonpassive_delivery (3 : Nat) 2 2
    ⟨[("0", some ⟨7, ⟨false, false⟩⟩), ("1", some ⟨8, ⟨false, false⟩⟩)], false⟩
    (by decide) (by decide) (by decide)
  refine ⟨?_, h.2.1, h.2.2.1⟩
  rw [h.1]
  decide

/-- C4: after a completed `bust` (with non-mutating listeners) exactly
the `keepAlive` entries survive — reachable via `get` and delivered by
future busts — while every non-keepAlive entry is unreachable via `get`,
`size` and future busts; every entry present at the start of the bust is
invoked exactly once per bust, and this persists over any number of
busts. -/
theorem C4_keepAlive_lifecycle {π : Type} (params : π) (fuel ctr : Nat)
    (m : MetricIndexer)
    (hnd : (liveKeys m.queue).Nodup)
    (hlen : m.queue.length ≤ fuel) :
    liveList (MetricIndexer.bust envPure params fuel m ctr).1.queue
        = (liveList m.queue).filter (fun q => q.2.config.keepAlive) ∧
    (MetricIndexer.bust envPure params fuel m ctr).2.2
        = syncTraceOf params m.queue ++ pendTraceOf params m.queue ∧
    (∀ q ∈ liveList m.queue, q.2.config.keepAlive = true →
      (MetricIndexer.bust envPure params fuel m ctr).1.get q.1 = some q.2) ∧
    (∀ q ∈ liveList m.queue, q.2.config.keepAlive = false →
      (MetricIndexer.bust envPure params fuel m ctr).1.get q.1 = none) ∧
    (∀ n, liveList (bustIter envPure params fuel (n + 1) (m, ctr)).1.queue
        = (liveList m.queue).filter (fun q => q.2.config.keepAlive)) ∧
    (∀ n,
      (MetricIndexer.bust envPure params fuel
          (bustIter envPure params fuel (n + 1) (m, ctr)).1
          (bustIter envPure params fuel (n + 1) (m, ctr)).2).2.2
        = syncTraceOf params (processAll m.queue)
          ++ pendTraceOf params (processAll m.queue)) := by
  have hb := bust_pure params fuel m ctr hnd hlen
  have hnd' : (liveKeys (processAll m.queue)).Nodup :=
    hnd.sublist (liveKeys_processAll_sublist m.queue)
  have hlen' : (processAll m.queue).length ≤ fuel := by
    simpa [processAll] using hlen
  refine ⟨?_, ?_, ?_, ?_, ?_, ?_⟩
  · rw [hb]
    exact liveList_processAll m.queue
  · rw [hb]
  · intro q hq hk
    rw [hb]
    show slotsGet (processAll m.queue) q.1 = some q.2
    apply mem_liveList_slotsGet (processAll m.queue) q hnd'
    rw [liveList_processAll]
    exact List.mem_filter.mpr ⟨hq, by rw [hk]⟩
  · intro q hq hk
    rw [hb]
    show slotsGet (processAll m.queue) q.1 = none
    apply slotsGet_eq_none
    intro hmem
    rw [liveKeys_eq_map_fst_liveList, liveList_processAll] at hmem
    rcases List.mem_map.mp hmem with ⟨q', hq', he⟩
    rcases List.mem_filter.mp hq' with ⟨hq'm, hq'k⟩
    have : q = q' := liveList_key_inj m.queue hnd q q' hq hq'm he.symm
    rw [← this] at hq'k
    rw [hk] at hq'k
    exact absurd hq'k (by simp)
  · intro n
    rw [bustIter_pure params fuel n m ctr hnd hlen]
    exact liveList_processAll m.queue
  · intro n
    rw [bustIter_pure params fuel n m ctr hnd hlen]
    have := bust_pure params fuel { m with queue := processAll m.queue } ctr hnd' hlen'
    simp only at this ⊢
    rw [this]

/-- Witness for C4: one keepAlive passive entry and one non-keepAlive
non-passive entry, busted twice. -/
theorem C4_keepAlive_lifecycle_witness :
    liveList (MetricIndexer.bust envPure (5 : Nat) 2
        ⟨[("0", some ⟨7, ⟨true, true⟩⟩), ("1", some ⟨8, ⟨false, false⟩⟩)], false⟩
        2).1.queue = [("0", ⟨7, ⟨true, true⟩⟩)] ∧
    (MetricIndexer.bust envPure (5 : Nat) 2
        ⟨[("0", some ⟨7, ⟨true, true⟩⟩), ("1", some ⟨8, ⟨false, false⟩⟩)], false⟩
        2).2.2 = [(8, 5), (7, 5)] ∧
    liveList (bustIter envPure (5 : Nat) 2 2
        (⟨[("0", some ⟨7, ⟨true, true⟩⟩), ("1", some ⟨8, ⟨false, false⟩⟩)], false⟩,
         2)).1.queue = [("0", ⟨7, ⟨true, true⟩⟩)] := by
  have h := C4_keepAlive_lifecycle (5 : Nat) 2 2
    ⟨[("0", some ⟨7, ⟨true, true⟩⟩), ("1", some ⟨8, ⟨false, false⟩⟩)], false⟩
    (by decide) (by decide)
  refine ⟨?_, ?_, ?_⟩
  · rw [h.1]
    decide
  · rw [h.2.1]
    decide
  · rw [h.2.2.2.2.1 1]
    decide

/-- C6: `chubbinessCheck` fails — with the capacity-warning text — exactly
when warnings are not silenced and the Registry holds 20 or more entries
(`size > 19`); so at 20 entries it fails, at 19 it does not, and when
silenced it never fails, regardless of size. -/
theorem C6_chubbinessCheck (m : MetricIndexer) (event : String) :
    (m.chubbinessCheck event
        = .error (MetricIndexer.chubbinessMessage event)
      ↔ (m.silenceWarnings = false ∧ 20 ≤ m.size)) ∧
    (m.chubbinessCheck event = .ok ()
      ↔ (m.silenceWarnings = true ∨ m.size ≤ 19)) := by
  unfold MetricIndexer.chubbinessCheck MetricIndexer.size
  by_cases hs : m.silenceWarnings <;> by_cases h20 : slotsSize m.queue > 19 <;>
    simp [hs, h20] <;> omega

theorem nextIDs_eq (n : Nat) : ∀ ctr : Nat,
    nextIDs n ctr = (List.range' ctr n).map decimalRepr := by
  induction n with
  | zero => intro ctr; rfl
  | succ n ih =>
    intro ctr
    simp only [nextIDs, AutoIncrementingID.nextID, List.range'_succ, List.map_cons]
    rw [ih (ctr + 1)]

theorem addSeq_ids (L : List (Nat × ListenerConfigArg)) :
    ∀ (m : MetricIndexer) (ctr : Nat),
      (addSeq L m ctr).1 = nextIDs L.length ctr := by
  induction L with
  | nil => intro m ctr; rfl
  | cons hd rest ih =>
    intro m ctr
    obtain ⟨l, cfg⟩ := hd
    simp only [addSeq, MetricIndexer.add, AutoIncrementingID.nextID, List.length_cons,
      nextIDs]
    rw [ih _ (ctr + 1)]

/-- C8: for every sequence of `add` calls (on any Registry or Registries,
since all share the one `AutoIncrementingID` counter), the returned
identifiers are exactly the decimal string forms of `ctr, ctr+1, …` in
call order — `0, 1, 2, …` from a fresh counter — and are pairwise
distinct; the `nextID` stream itself never repeats a value within one
un-reset lifetime. -/
theorem C8_identifier_allocation (L : List (Nat × ListenerConfigArg))
    (m : MetricIndexer) (ctr n : Nat) :
    (addSeq L m ctr).1 = (List.range' ctr L.length).map decimalRepr ∧
    (addSeq L m 0).1 = (List.range L.length).map decimalRepr ∧
    ((addSeq L m ctr).1).Nodup ∧
    nextIDs n ctr = (List.range' ctr n).map decimalRepr ∧
    (nextIDs n ctr).Nodup := by
  have hr : (addSeq L m ctr).1 = (List.range' ctr L.length).map decimalRepr := by
    rw [addSeq_ids L m ctr, nextIDs_eq]
  refine ⟨hr, ?_, ?_, nextIDs_eq n ctr, ?_⟩
  · rw [addSeq_ids L m 0, nextIDs_eq, List.range_eq_range']
  · rw [hr]
    exact List.Nodup.map decimalRepr_injective (List.nodup_range' _ _)
  · rw [nextIDs_eq n ctr]
    exact List.Nodup.map decimalRepr_injective (List.nodup_range' _ _)

/-- C9: `removeEventListener(event, id)` returns `true` exactly when a
Registry exists for `event` — regardless of whether `id` was present in
it — after delegating the removal and pruning the Registry if it emptied,
and returns `null` exactly when no Registry exists for `event`. -/
theorem C9_removeEventListener (q : MetricsQueue) (event callbackID : String) :
    ((q.removeEventListener event callbackID).2 = some true
      ↔ ∃ idx, emGet q.emitter event = some idx) ∧
    ((q.removeEventListener event callbackID).2 = none
      ↔ emGet q.emitter event = none) ∧
    (emGet q.emitter event = none →
      (q.removeEventListener event callbackID).1 = q) ∧
    (∀ idx, emGet q.emitter event = some idx →
      (q.removeEventListener event callbackID).1
        = MetricsQueue.checkForEmptyIndexer
            ⟨emSet q.emitter event (idx.remove callbackID).1⟩ event) := by
  unfold MetricsQueue.removeEventListener
  cases hg : emGet q.emitter event with
  | none => simp [hg]
  | some idx =>
    refine ⟨by simp, by simp, by simp [hg], ?_⟩
    intro idx' hidx'
    cases hidx'
    rfl

/-- Witness for C9: a queue with no Registry for `"x"` yields `null`; a
queue holding a Registry for `"m"` yields `true` even for an id that was
never issued. -/
theorem C9_removeEventListener_witness :
    (MetricsQueue.removeEventListener ⟨[]⟩ "x" "99").2 = none ∧
    (MetricsQueue.removeEventListener
        ⟨[("m", ⟨[("0", some ⟨5, ⟨false, true⟩⟩)], false⟩)]⟩ "m" "99").2
      = some true := by
  have h1 := C9_removeEventListener ⟨[]⟩ "x" "99"
  have h2 := C9_removeEventListener
    ⟨[("m", ⟨[("0", some ⟨5, ⟨false, true⟩⟩)], false⟩)]⟩ "m" "99"
  exact ⟨h1.2.1.mpr rfl, h2.1.mpr ⟨_, rfl⟩⟩

/-- C10: `MetricIndexer.destroy` empties the queue and resets
`silenceWarnings` to `false`, but leaves the shared `AutoIncrementingID`
counter unchanged: an `add` after `destroy` continues the previous id
sequence (it yields the decimal form of the current counter, not `"0"`,
whenever the counter is nonzero) — only `AutoIncrementingID.destroy`
resets the counter to `0`. -/
theorem C10_destroy_frame (m : MetricIndexer) (ctr l : Nat)
    (cfg : ListenerConfigArg) :
    (m.destroy).queue = [] ∧
    (m.destroy).silenceWarnings = false ∧
    ((m.destroy).add ctr l cfg).1 = decimalRepr ctr ∧
    ((m.destroy).add ctr l cfg).2.2 = ctr + 1 ∧
    AutoIncrementingID.destroy ctr = 0 ∧
    (ctr ≠ 0 → ((m.destroy).add ctr l cfg).1 ≠ decimalRepr 0) := by
  refine ⟨rfl, rfl, rfl, rfl, rfl, ?_⟩
  intro h0 he
  exact h0 (decimalRepr_injective he)

/-- Witness for C10: after `destroy` of a populated registry, an `add`
with the counter at `5` yields `"5"`, not `"0"`. -/
theorem C10_destroy_frame_witness :
    ((MetricIndexer.destroy ⟨[("0", some ⟨1, ⟨false, true⟩⟩)], true⟩).add 5 9
        ⟨none, none⟩).1 = "5" ∧
    ((MetricIndexer.destroy ⟨[("0", some ⟨1, ⟨false, true⟩⟩)], true⟩).add 5 9
        ⟨none, none⟩).1 ≠ decimalRepr 0 := by
  have h := C10_destroy_frame ⟨[("0", some ⟨1, ⟨false, true⟩⟩)], true⟩ 5 9 ⟨none, none⟩
  refine ⟨?_, h.2.2.2.2.2 (by decide)⟩
  rw [h.2.2.1]
  decide

/-- C2 counterexample: a passive entry is scheduled by `bustSync`; the
entry is then removed from the Registry — successfully — after
scheduling but before the deferred phase runs; the deferred phase still
invokes the captured listener.  The claim "the listener callback is
never invoked" is false at this input. -/
theorem C2_counterexample :
    (MetricIndexer.bustSync envPure (0 : Nat) 1
        ⟨[("0", some ⟨7, ⟨false, true⟩⟩)], false⟩ 1).2.2.2
      = [⟨7, false, "0"⟩] ∧
    ((MetricIndexer.bustSync envPure (0 : Nat) 1
        ⟨[("0", some ⟨7, ⟨false, true⟩⟩)], false⟩ 1).1.remove "0").2 = true ∧
    (runPending envPure (0 : Nat)
        (MetricIndexer.bustSync envPure (0 : Nat) 1
          ⟨[("0", some ⟨7, ⟨false, true⟩⟩)], false⟩ 1).2.2.2
        (((MetricIndexer.bustSync envPure (0 : Nat) 1
            ⟨[("0", some ⟨7, ⟨false, true⟩⟩)], false⟩ 1).1.remove "0").1,
         1, [])).2.2 = [(7, 0)] := by
  decide

/-- C2 amended: removing a passive entry after its deferred unit has been
scheduled but before it executes does **not** prevent the invocation —
the deferred unit invokes the listener it captured at scheduling time
regardless of the entry's absence; the only effect of the removal is
that the unit's subsequent retirement delete of the entry is a harmless
no-op (`Map.delete` returns `false`), never an error. -/
theorem C2_removal_after_scheduling {π : Type} (l ctr : Nat) (params : π) :
    (MetricIndexer.bustSync envPure params 1
        ⟨[("0", some ⟨l, ⟨false, true⟩⟩)], false⟩ ctr).2.2.2
      = [⟨l, false, "0"⟩] ∧
    ((MetricIndexer.bustSync envPure params 1
        ⟨[("0", some ⟨l, ⟨false, true⟩⟩)], false⟩ ctr).1.remove "0").2 = true ∧
    (runPending envPure params [⟨l, false, "0"⟩]
        (((MetricIndexer.bustSync envPure params 1
            ⟨[("0", some ⟨l, ⟨false, true⟩⟩)], false⟩ ctr).1.remove "0").1,
         ctr, [])).2.2 = [(l, params)] ∧
    ((((MetricIndexer.bustSync envPure params 1
          ⟨[("0", some ⟨l, ⟨false, true⟩⟩)], false⟩ ctr).1.remove "0").1).remove
        "0").2 = false := by
  exact ⟨rfl, rfl, rfl, rfl⟩

/-- C3 counterexample: with two non-passive entries where the first
callback re-entrantly removes the second, the bust invokes only the
first — the sibling present at the start is skipped — and a callback
that re-entrantly adds an entry sees that entry delivered by the same
bust.  Both parts of the snapshot claim are false at these inputs. -/
theorem C3_counterexample :
    (MetricIndexer.bust (fun n => if n = 0 then [.removeId "1"] else [])
        (0 : Nat) 2
        ⟨[("0", some ⟨0, ⟨false, false⟩⟩), ("1", some ⟨1, ⟨false, false⟩⟩)], false⟩
        2).2.2 = [(0, 0)] ∧
    ("1", (⟨1, ⟨false, false⟩⟩ : MetricEvent))
      ∈ liveList [("0", some ⟨0, ⟨false, false⟩⟩), ("1", some ⟨1, ⟨false, false⟩⟩)] ∧
    ((1 : Nat), (0 : Nat)) ∉ [((0 : Nat), (0 : Nat))] ∧
    (MetricIndexer.bust
        (fun n => if n = 0 then [.addListener 5 ⟨some false, some false⟩] else [])
        (0 : Nat) 3
        ⟨[("0", some ⟨0, ⟨false, false⟩⟩)], false⟩ 1).2.2 = [(0, 0), (5, 0)] := by
  decide

/-- C3 amended: `bust` iterates over the live `Map`, not a snapshot.
Re-entrant mutation during the bust is tolerated without error, but: an
entry present at the start that an earlier callback removes before it is
visited is skipped — never invoked — and left absent; and an entry added
re-entrantly during the bust **is** delivered by that same bust. -/
theorem C3_live_iteration {π : Type} (params : π) :
    (MetricIndexer.bust (fun n => if n = 0 then [.removeId "1"] else [])
        params 2
        ⟨[("0", some ⟨0, ⟨false, false⟩⟩), ("1", some ⟨1, ⟨false, false⟩⟩)], false⟩
        2).2.2 = [(0, params)] ∧
    (MetricIndexer.bust (fun n => if n = 0 then [.removeId "1"] else [])
        params 2
        ⟨[("0", some ⟨0, ⟨false, false⟩⟩), ("1", some ⟨1, ⟨false, false⟩⟩)], false⟩
        2).1.get "1" = none ∧
    (MetricIndexer.bust
        (fun n => if n = 0 then [.addListener 5 ⟨some false, some false⟩] else [])
        params 3 ⟨[("0", some ⟨0, ⟨false, false⟩⟩)], false⟩ 1).2.2
      = [(0, params), (5, params)] := by
  exact ⟨rfl, rfl, rfl⟩

/-- C5 counterexample: a plugin dispatch `("m", "x")` delivers only
`["x"]` to the listener registered for `"m"` — not `["m", "x"]` — so the
claim that listeners receive all arguments *including the event name* is
false at this input. -/
theorem C5_counterexample :
    (MetricsQueue.onPluginEvent envPure 1 "m" ["x"]
        ⟨[("m", ⟨[("0", some ⟨5, ⟨false, false⟩⟩)], false⟩)]⟩ 1).2.2
      = [(5, ["x"])] ∧
    [((5 : Nat), ["x"])] ≠ [((5 : Nat), ["m", "x"])] := by
  decide

/-- C5 amended: a registered plugin callable invoked as
`(eventName, ...rest)` forwards exactly `rest` — verbatim, but without
the event name, which is consumed by `onPluginEvent`'s first parameter —
to every listener registered for `eventName`, via the corresponding
Registry's `bust`, in both dispatch modes. -/
theorem C5_plugin_forwarding {π : Type} (metric : String) (rest : π)
    (q : MetricsQueue) (ctr fuel : Nat) (idx : MetricIndexer)
    (hg : emGet q.emitter metric = some idx)
    (hnd : (liveKeys idx.queue).Nodup)
    (hlen : idx.queue.length ≤ fuel) :
    (MetricsQueue.onPluginEvent envPure fuel metric rest q ctr).2.2
        = syncTraceOf rest idx.queue ++ pendTraceOf rest idx.queue ∧
    (∀ x ∈ (MetricsQueue.onPluginEvent envPure fuel metric rest q ctr).2.2,
       x.2 = rest) ∧
    (∀ pacs,
      (MetricsQueue.pluginCallable pacs envPure fuel metric rest q ctr).trace
        = syncTraceOf rest idx.queue ++ pendTraceOf rest idx.queue) := by
  have hb := bust_pure rest fuel idx ctr hnd hlen
  have h1 : (MetricsQueue.onPluginEvent envPure fuel metric rest q ctr).2.2
      = syncTraceOf rest idx.queue ++ pendTraceOf rest idx.queue := by
    unfold MetricsQueue.onPluginEvent
    rw [hg]
    simp only [hb]
  refine ⟨h1, ?_, fun _ => h1⟩
  rw [h1]
  intro x hx
  rcases List.mem_append.mp hx with h | h
  · rcases List.mem_map.mp h with ⟨p, _, rfl⟩
    rfl
  · rcases List.mem_map.mp h with ⟨p, _, rfl⟩
    rfl

/-- Witness for C5 amended: the `("m", "x")` dispatch delivers `["x"]`
to the listener. -/
theorem C5_plugin_forwarding_witness :
    (MetricsQueue.onPluginEvent envPure 1 "m" ["x"]
        ⟨[("m", ⟨[("0", some ⟨5, ⟨false, true⟩⟩)], false⟩)]⟩ 1).2.2
      = [(5, ["x"])] := by
  have h := C5_plugin_forwarding "m" ["x"]
    ⟨[("m", ⟨[("0", some ⟨5, ⟨false, true⟩⟩)], false⟩)]⟩ 1 1
    ⟨[("0", some ⟨5, ⟨false, true⟩⟩)], false⟩ rfl (by decide) (by decide)
  rw [h.1]
  decide

/-- C7 counterexample: with an original `mark` that throws, the installed
wrapper returns normally (with `null`) instead of rethrowing — it is not
a drop-in replacement for the original's thrown-error behaviour. -/
theorem C7_counterexample :
    ¬ (Except.ok ((markMiddleware
          (some (fun _ : Unit => (Except.error "boom" : Except String Nat))) ()).1)
        = (wrapperDropInSpec
            (fun _ : Unit => (Except.error "boom" : Except String Nat)) ()).map
            (fun p => some p.1)) ∧
    (markMiddleware
        (some (fun _ : Unit => (Except.error "boom" : Except String Nat))) ()).1
      = none := by
  exact ⟨fun h => Except.noConfusion h, rfl⟩

/-- C7 amended: after `init`, the wrapper returns exactly the original's
return value whenever the original returns normally, but when the
original throws, the wrapper suppresses the error and returns `null`
instead of rethrowing; in both cases the deferred bust payload carries
the captured result and the original arguments verbatim. -/
theorem C7_middleware_behaviour {α ε μ ν : Type}
    (mark : α → Except ε μ) (args : α)
    (measure : α → Except ε ν) (margs : α) :
    markMiddleware (some mark) args
        = ((mark args).toOption, (mark args).toOption, args) ∧
    measureMiddlware (some measure) margs
        = ((measure margs).toOption, (measure margs).toOption, margs) := by
  constructor
  · cases h : mark args <;>
      simp [markMiddleware, safetyWrap, h, Except.toOption, Except.map]
  · cases h : measure margs <;>
      simp [measureMiddlware, safetyWrap, h, Except.toOption, Except.map]

end MetricsQueueModel
